import Mathlib

/-!
Verification of the gocover-cobertura converter (profile parser, block merger,
declaration resolver, coverage aggregation and report emission) against its
natural-language specification.  The Go source is shallowly embedded: pure
string and list manipulation is translated directly, the file system, the Go
source parser and the output writer are oracles passed as parameters, and Go
machine integers are modelled as `Nat` (all the quantities involved — lines,
columns, statement and hit counts — are parsed from digit strings, hence
non-negative; `strconv.Atoi` range failure is modelled explicitly in `toInt`).
-/

set_option maxRecDepth 8000

deriving instance DecidableEq for Except

namespace GocoverCobertura

/-! ### String helpers mirroring the Go standard library calls used by the source -/

/-- Model of `strings.HasPrefix`: `isPre pre s` is true when `pre` is a prefix of `s`. -/
def isPre : List Char → List Char → Bool
  | [], _ => true
  | _ :: _, [] => false
  | a :: as, b :: bs => a == b && isPre as bs

/-- `strings.HasPrefix s pre`. -/
def goHasPre (s pre : String) : Bool := isPre pre.toList s.toList

/-- `strings.TrimRight s (String.singleton c)`: drop every trailing occurrence of `c`. -/
def trimRightChar (s : String) (c : Char) : String :=
  ((s.toList.reverse.dropWhile (fun d => d == c)).reverse).asString

/-- The directory part (with its trailing separator) of `filepath.Split` on Linux:
everything up to and including the last `/`. -/
def dirPart (cs : List Char) : List Char :=
  (cs.reverse.dropWhile (fun d => d != '/')).reverse

/-- `filepath.Base` on Linux. -/
def filepathBase (s : String) : String :=
  if s = "" then "."
  else
    let cs := s.toList.reverse.dropWhile (fun d => d == '/')
    if cs = [] then "/" else (cs.takeWhile (fun d => d != '/')).reverse.asString

/-- `getPackageName` (main.go:160-164): directory of the profile file name, with
trailing `\` and `/` trimmed. -/
def getPackageName (filename : String) : String :=
  let pkgName := (dirPart filename.toList).asString
  trimRightChar (trimRightChar pkgName '\\') '/'

/-- `filepath.Join` of two path elements on Linux.  Go additionally runs
`filepath.Clean`; the inputs produced by this program (module paths and package
directories without `.`, `..` or repeated separators) are already clean, for
which the two agree. -/
def filepathJoin (a b : String) : String :=
  if a = "" then b else if b = "" then a else a ++ ("/") ++ b

/-- The resolved package path of a file (main.go:211-215): directory of the
module-relative file name, trailing separators trimmed, joined to the module
path, and `\` normalised to `/`. -/
def pkgPathOf (modPath fileName : String) : String :=
  let pkgPath := (dirPart fileName.toList).asString
  let pkgPath := trimRightChar (trimRightChar pkgPath '/') '\\'
  let pkgPath := filepathJoin modPath pkgPath
  (pkgPath.toList.map (fun c => if c == '\\' then '/' else c)).asString

/-- Go's `s[k:]` byte slicing, modelled on characters (the strings involved are
ASCII).  Go panics when `k` exceeds the length; the model totalises via `drop`. -/
def goSliceFrom (s : String) (k : Nat) : String := (s.toList.drop k).asString

/-! ### Data model (types.go declares these structures; the fields used by the
claims are kept, the XML attributes and derived rate fields are elided) -/

structure ProfileBlock where
  StartLine : Nat
  StartCol : Nat
  EndLine : Nat
  EndCol : Nat
  NumStmt : Nat
  Count : Nat
deriving DecidableEq

structure Profile where
  FileName : String
  Mode : String
  Blocks : List ProfileBlock
deriving DecidableEq

structure Line where
  Number : Nat
  Hits : Nat
deriving DecidableEq

structure Method where
  Name : String
  Lines : List Line
deriving DecidableEq

structure Class where
  Name : String
  Filename : String
  Methods : List Method
  Lines : List Line
deriving DecidableEq

structure Package where
  Name : String
  Classes : List Class
deriving DecidableEq

/-- The module metadata of a `packages.Package` (collaborator type). -/
structure GoModule where
  Path : String
deriving DecidableEq

/-- The slice of `packages.Package` (golang.org/x/tools collaborator) consumed
by the source: its ID, its Go files and its optional module. -/
structure GoPackage where
  ID : String
  GoFiles : List String
  Module : Option GoModule
deriving DecidableEq

/-! ### The block line pattern

`lineRe = ^(.+):([0-9]+).([0-9]+),([0-9]+).([0-9]+) ([0-9]+) ([0-9]+)$`.
The matcher below implements Go's leftmost-first submatch semantics for this
anchored pattern: greedy `(.+)` prefers the longest file-name prefix, each
`([0-9]+)` prefers the longest digit run, the two unescaped `.` match one
arbitrary non-newline character, `,` and the spaces are literals. -/

/-- A regexp `.`: any character except newline. -/
def anyCh (c : Char) : Bool := c != '\n'

/-- Maximal leading digit run and the remainder. -/
def digitRun : List Char → List Char × List Char
  | [] => ([], [])
  | c :: cs =>
    if c.isDigit then
      let dr := digitRun cs
      (c :: dr.1, dr.2)
    else ([], c :: cs)

/-- All the splits a greedy `([0-9]+)` can produce, longest first. -/
def digitSplits (cs : List Char) : List (List Char × List Char) :=
  let dr := digitRun cs
  (List.range dr.1.length).map
    (fun k => (dr.1.take (dr.1.length - k), dr.1.drop (dr.1.length - k) ++ dr.2))

/-- First success of `f` over `xs`, in order: regexp alternative preference. -/
def firstSome {α β : Type} : List α → (α → Option β) → Option β
  | [], _ => none
  | x :: xs, f =>
    match f x with
    | some b => some b
    | none => firstSome xs f

/-- Match the pattern after the `:`:
`([0-9]+).([0-9]+),([0-9]+).([0-9]+) ([0-9]+) ([0-9]+)$`. -/
def matchTail (cs : List Char) :
    Option (List Char × List Char × List Char × List Char × List Char × List Char) :=
  firstSome (digitSplits cs) fun p2 =>
    match p2.2 with
    | c1 :: r1 =>
      if anyCh c1 then
        firstSome (digitSplits r1) fun p3 =>
          match p3.2 with
          | ',' :: r2 =>
            firstSome (digitSplits r2) fun p4 =>
              match p4.2 with
              | c2 :: r3 =>
                if anyCh c2 then
                  firstSome (digitSplits r3) fun p5 =>
                    match p5.2 with
                    | ' ' :: r4 =>
                      firstSome (digitSplits r4) fun p6 =>
                        match p6.2 with
                        | ' ' :: r5 =>
                          firstSome (digitSplits r5) fun p7 =>
                            if p7.2 = [] then
                              some (p2.1, p3.1, p4.1, p5.1, p6.1, p7.1)
                            else none
                        | _ => none
                    | _ => none
                else none
              | _ => none
          | _ => none
      else none
    | [] => none

/-- The seven capture groups of `lineRe`, as matched strings. -/
structure MatchGroups where
  fileStr : String
  startLineStr : String
  startColStr : String
  endLineStr : String
  endColStr : String
  numStmtStr : String
  countStr : String
deriving DecidableEq

/-- `lineRe.FindStringSubmatch`: the seven capture groups, or `none`. -/
def lineMatch (s : String) : Option MatchGroups :=
  let cs := s.toList
  firstSome ((List.range (cs.length - 1)).map (fun k => cs.length - 1 - k)) fun i =>
    if (cs.take i).all anyCh then
      match cs.drop i with
      | ':' :: rest =>
        (matchTail rest).map (fun g =>
          ⟨(cs.take i).asString, g.1.asString, g.2.1.asString, g.2.2.1.asString,
            g.2.2.2.1.asString, g.2.2.2.2.1.asString, g.2.2.2.2.2.asString⟩)
      | _ => none
    else none

/-- Decimal value of a digit string. -/
def digitsVal : List Char → Nat → Nat
  | [], acc => acc
  | c :: cs, acc => digitsVal cs (acc * 10 + (c.toNat - 48))

/-- `toInt` (profile.go): `strconv.Atoi` on a capture group.  The groups are
non-empty digit strings, for which `Atoi` succeeds exactly when the value fits
in a 64-bit `int`; on failure `toInt` panics, modelled by `none`. -/
def toInt (s : String) : Option Nat :=
  let v := digitsVal s.toList 0
  if v ≤ 9223372036854775807 then some v else none

/-! ### The profile parser (profile.go) -/

/-- Outcome of a parsing step: normal result, returned error, or runtime panic. -/
inductive POutcome (α : Type) where
  | ok (a : α)
  | err (msg : String)
  | panicked
deriving DecidableEq

/-- Append a block to the (insertion-ordered) file map, creating the `Profile`
on first sight (parseLine, profile.go). -/
def addBlockToFiles (files : List Profile) (f : String) (mode : String)
    (b : ProfileBlock) : List Profile :=
  if files.any (fun p => p.FileName == f) then
    files.map (fun p => if p.FileName == f then { p with Blocks := p.Blocks ++ [b] } else p)
  else files ++ [⟨f, mode, [b]⟩]

/-- `parseLine` (profile.go): the first line must be `mode: <mode>` and must not
be exactly `mode: `; later lines are matched against `lineRe`, non-matching
lines are skipped, matching lines of ignored files are skipped, and otherwise
the seven groups run through `toInt` (panicking on failure) to build a block. -/
def parseLine (ig : String → Option String → Bool) (mode : String) (line : String)
    (files : List Profile) : POutcome (String × List Profile) :=
  if mode = "" then
    if ¬ goHasPre line ("mode: ") ∨ line = "mode: " then
      .err (("bad mode line: ") ++ line)
    else .ok ((line.toList.drop 6).asString, files)
  else
    match lineMatch line with
    | none => .ok (mode, files)
    | some g =>
      if ig g.fileStr none then .ok (mode, files)
      else
        match toInt g.startLineStr, toInt g.startColStr, toInt g.endLineStr,
            toInt g.endColStr, toInt g.numStmtStr, toInt g.countStr with
        | some sl, some sc, some el, some ec, some ns, some cnt =>
          .ok (mode, addBlockToFiles files g.fileStr mode ⟨sl, sc, el, ec, ns, cnt⟩)
        | _, _, _, _, _, _ => .panicked

/-- Ordering used by `blocksByStart` (profile.go): lexicographic on
(start line, start col).  The non-strict version; stable sorting by it agrees
with Go's `sort.Sort` on the strict `Less` for the inputs below. -/
def blockLe (a b : ProfileBlock) : Prop :=
  a.StartLine < b.StartLine ∨ (a.StartLine = b.StartLine ∧ a.StartCol ≤ b.StartCol)

instance : DecidableRel blockLe := fun a b =>
  inferInstanceAs (Decidable (a.StartLine < b.StartLine ∨
    (a.StartLine = b.StartLine ∧ a.StartCol ≤ b.StartCol)))

instance : IsTotal ProfileBlock blockLe :=
  ⟨by intro a b; unfold blockLe; omega⟩

instance : IsTrans ProfileBlock blockLe :=
  ⟨by intro a b c; unfold blockLe; omega⟩

/-- Two blocks cover the identical source span (the merge condition,
profile.go `mergeSameLocationSamples`). -/
def sameSpan (a b : ProfileBlock) : Bool :=
  a.StartLine == b.StartLine && a.StartCol == b.StartCol &&
    a.EndLine == b.EndLine && a.EndCol == b.EndCol

/-- The four span coordinates of a block (the merge identity). -/
def span (b : ProfileBlock) : Nat × Nat × Nat × Nat :=
  (b.StartLine, b.StartCol, b.EndLine, b.EndCol)

/-- `blockLe` seen on span tuples. -/
def spanLe (s t : Nat × Nat × Nat × Nat) : Prop :=
  s.1 < t.1 ∨ (s.1 = t.1 ∧ s.2.1 ≤ t.2.1)

/-- The merge loop of `mergeSameLocationSamples` (profile.go:349-378): walk the
sorted blocks keeping the last retained block; an adjacent block with the same
span must agree on `NumStmt` (else a hard error) and combines its count into
the retained block, bitwise-OR under mode `set`, addition otherwise. -/
def mergeGo (mode : String) (last : ProfileBlock) :
    List ProfileBlock → Except String (List ProfileBlock)
  | [] => .ok [last]
  | c :: cs =>
    if sameSpan c last then
      if c.NumStmt ≠ last.NumStmt then
        .error (("inconsistent NumStmt: changed from ") ++ toString last.NumStmt ++
          (" to ") ++ toString c.NumStmt)
      else
        mergeGo mode
          { last with
            Count := if mode = "set" then Nat.lor last.Count c.Count
                     else last.Count + c.Count } cs
    else
      (mergeGo mode c cs).map (fun r => last :: r)

/-- Sort a file's blocks by (start line, start col) and merge adjacent equal
spans.  `sort.Sort` is modelled by a stable insertion sort; Go itself uses
insertion sort for the slices shorter than 12 elements considered in the
concrete runs below.  An empty block list is unreachable (a profile is created
together with its first block). -/
def mergeProfileBlocks (mode : String) (blocks : List ProfileBlock) :
    Except String (List ProfileBlock) :=
  match List.insertionSort blockLe blocks with
  | [] => .ok []
  | b :: bs => mergeGo mode b bs

/-- `mergeSameLocationSamples` (profile.go): merge every file's blocks,
propagating the first error. -/
def mergeSameLocationSamples (mode : String) (files : List Profile) :
    Except String (List Profile) :=
  files.mapM (fun p => (mergeProfileBlocks mode p.Blocks).map (fun bs => { p with Blocks := bs }))

/-- Go's string comparison (byte-wise lexicographic; UTF-8 byte order agrees
with code-point order), non-strict. -/
def strLeList : List Char → List Char → Bool
  | [], _ => true
  | _ :: _, [] => false
  | a :: as, b :: bs =>
    if a.toNat < b.toNat then true
    else if b.toNat < a.toNat then false
    else strLeList as bs

/-- Ordering of `byFileName` (profile.go): `FileName` comparison. -/
def profLe (a b : Profile) : Prop :=
  strLeList a.FileName.toList b.FileName.toList = true

instance : DecidableRel profLe := fun a b =>
  inferInstanceAs (Decidable (strLeList a.FileName.toList b.FileName.toList = true))

instance : IsTotal Profile profLe := by
  constructor
  have H : ∀ (as bs : List Char), strLeList as bs = true ∨ strLeList bs as = true := by
    intro as
    induction as with
    | nil => intro bs; exact Or.inl rfl
    | cons a as ih =>
      intro bs
      cases bs with
      | nil => exact Or.inr rfl
      | cons b bs =>
        simp only [strLeList]
        by_cases hab : a.toNat < b.toNat
        · exact Or.inl (by rw [if_pos hab])
        · by_cases hba : b.toNat < a.toNat
          · exact Or.inr (by rw [if_pos hba])
          · rcases ih bs with h | h
            · exact Or.inl (by rw [if_neg hab, if_neg hba]; exact h)
            · exact Or.inr (by rw [if_neg hba, if_neg hab]; exact h)
  intro a b
  exact H a.FileName.toList b.FileName.toList

instance : IsTrans Profile profLe := by
  constructor
  have H : ∀ (as bs cs : List Char),
      strLeList as bs = true → strLeList bs cs = true → strLeList as cs = true := by
    intro as
    induction as with
    | nil => intro bs cs _ _; rfl
    | cons a as ih =>
      intro bs cs h1 h2
      cases bs with
      | nil => simp [strLeList] at h1
      | cons b bs =>
        cases cs with
        | nil => simp [strLeList] at h2
        | cons c cs =>
          simp only [strLeList] at h1 h2 ⊢
          by_cases hab : a.toNat < b.toNat
          · by_cases hbc : b.toNat < c.toNat
            · rw [if_pos (by omega)]
            · rw [if_neg hbc] at h2
              by_cases hcb : c.toNat < b.toNat
              · rw [if_pos hcb] at h2
                exact absurd h2 (by simp)
              · rw [if_pos (by omega : a.toNat < c.toNat)]
          · rw [if_neg hab] at h1
            by_cases hba : b.toNat < a.toNat
            · rw [if_pos hba] at h1
              exact absurd h1 (by simp)
            · rw [if_neg hba] at h1
              by_cases hbc : b.toNat < c.toNat
              · rw [if_pos hbc] at h2
                rw [if_pos (by omega : a.toNat < c.toNat)]
              · rw [if_neg hbc] at h2
                by_cases hcb : c.toNat < b.toNat
                · rw [if_pos hcb] at h2
                  exact absurd h2 (by simp)
                · rw [if_neg hcb] at h2
                  rw [if_neg (by omega : ¬ a.toNat < c.toNat),
                    if_neg (by omega : ¬ c.toNat < a.toNat)]
                  exact ih bs cs h1 h2
  intro a b c h1 h2
  exact H a.FileName.toList b.FileName.toList c.FileName.toList h1 h2

/-- `generateSortedProfilesSlice` (profile.go): the profiles sorted by file name. -/
def generateSortedProfilesSlice (files : List Profile) : List Profile :=
  List.insertionSort profLe files

/-- The scanner loop of `ParseProfiles` (profile.go): feed every line through
`parseLine`, threading the mode and the file map. -/
def parseLinesGo (ig : String → Option String → Bool) :
    String → List String → List Profile → POutcome (String × List Profile)
  | mode, [], files => .ok (mode, files)
  | mode, l :: ls, files =>
    match parseLine ig mode l files with
    | .ok (m, fs) => parseLinesGo ig m ls fs
    | .err e => .err e
    | .panicked => .panicked

/-- `ParseProfiles` (profile.go): scan all lines, merge same-location samples,
return the profiles sorted by file name. -/
def ParseProfiles (ig : String → Option String → Bool) (lines : List String) :
    POutcome (List Profile) :=
  match parseLinesGo ig ("") lines [] with
  | .ok (mode, files) =>
    match mergeSameLocationSamples mode files with
    | .ok fs => .ok (generateSortedProfilesSlice fs)
    | .error e => .err e
  | .err e => .err e
  | .panicked => .panicked

/-! ### The declaration resolver (main.go: fileVisitor) -/

/-- A block starts at or past the declaration's end, lexicographically on
(line, column): the loop in `method` (main.go:277) breaks here. -/
def blockPastEnd (b : ProfileBlock) (endLine endCol : Nat) : Prop :=
  b.StartLine > endLine ∨ (b.StartLine = endLine ∧ b.StartCol ≥ endCol)

/-- A block ends at or before the declaration's start, lexicographically on
(line, column): the loop in `method` (main.go:282) skips it. -/
def blockBeforeStart (b : ProfileBlock) (startLine startCol : Nat) : Prop :=
  b.EndLine < startLine ∨ (b.EndLine = startLine ∧ b.EndCol ≤ startCol)

instance (b : ProfileBlock) (el ec : Nat) : Decidable (blockPastEnd b el ec) :=
  inferInstanceAs (Decidable (_ ∨ _))

instance (b : ProfileBlock) (sl sc : Nat) : Decidable (blockBeforeStart b sl sc) :=
  inferInstanceAs (Decidable (_ ∨ _))

/-- Modelled from the spec: the hit-count combination of `Lines.AddOrUpdateLine`
(declared in the repository's types.go, which is not under src/).  Spec §3,
Line: "under boolean mode the combination is logical-OR (≥1 becomes hit);
under count mode the combination is numeric sum". -/
def combineHits (mode : String) (oldHits newHits : Nat) : Nat :=
  if mode = "set" then (if 1 ≤ oldHits ∨ 1 ≤ newHits then 1 else 0) else oldHits + newHits

/-- Modelled from the spec: `Lines.AddOrUpdateLine` (types.go, not under src/;
called at main.go:288).  Spec §3: within one Method a line number is unique —
the first occurrence records the hit count, a recurrence combines per
`combineHits`. -/
def addOrUpdateLine (mode : String) (lines : List Line) (n : Nat) (hits : Nat) : List Line :=
  match lines with
  | [] => [⟨n, hits⟩]
  | l :: ls =>
    if l.Number = n then { l with Hits := combineHits mode l.Hits hits } :: ls
    else l :: addOrUpdateLine mode ls n hits

/-- The inner loop of `method` (main.go:287-289), `for i := lo; i <= hi; i++`,
run on explicit fuel `hi + 1 - lo` so that it computes by structural recursion. -/
def addLinesFuel (mode : String) (lines : List Line) (lo cnt : Nat) : Nat → List Line
  | 0 => lines
  | fuel + 1 => addLinesFuel mode (addOrUpdateLine mode lines lo cnt) (lo + 1) cnt fuel

/-- Record the block's count on every line of `[lo, hi]` (main.go:287-289). -/
def addBlockLines (mode : String) (lines : List Line) (lo hi cnt : Nat) : List Line :=
  addLinesFuel mode lines lo cnt (hi + 1 - lo)

/-- The block scan of `method` (main.go:275-290): stop at the first block at or
past the declaration's end, skip blocks before its start, record the rest. -/
def methodLoop (mode : String) (sl sc el ec : Nat) (lines : List Line) :
    List ProfileBlock → List Line
  | [] => lines
  | b :: bs =>
    if blockPastEnd b el ec then lines
    else if blockBeforeStart b sl sc then methodLoop mode sl sc el ec lines bs
    else methodLoop mode sl sc el ec (addBlockLines mode lines b.StartLine b.EndLine b.Count) bs

/-- `fileVisitor.method` (main.go:264-292): the Method built for one
declaration with span (sl, sc)-(el, ec) from the profile's sorted blocks. -/
def method (mode : String) (name : String) (sl sc el ec : Nat)
    (blocks : List ProfileBlock) : Method :=
  ⟨name, methodLoop mode sl sc el ec [] blocks⟩

/-- The blocks the scan of `method` selects, in order. -/
def selectBlocks (sl sc el ec : Nat) : List ProfileBlock → List ProfileBlock
  | [] => []
  | b :: bs =>
    if blockPastEnd b el ec then []
    else if blockBeforeStart b sl sc then selectBlocks sl sc el ec bs
    else b :: selectBlocks sl sc el ec bs

/-- Hit count recorded for line number `n`, if present. -/
def lineHits (lines : List Line) (n : Nat) : Option Nat :=
  match lines.find? (fun l => l.Number == n) with
  | some l => some l.Hits
  | none => none

/-- Left fold of `combineHits` over contributing counts, starting from an
optional already-recorded value: the first count is recorded as-is, every
further one is combined. -/
def combineOpt (mode : String) : Option Nat → List Nat → Option Nat
  | o, [] => o
  | o, c :: cs =>
    combineOpt mode
      (match o with
       | none => some c
       | some oldHits => some (combineHits mode oldHits c)) cs

/-! ### The visitor and `ParseProfile` (main.go:176-328) -/

/-- A function declaration as exposed by the source-parser collaborator
(`go/parser` + `token.FileSet` positions): name, span, and the raw receiver
type text (the byte slice of main.go:326), absent for free functions. -/
structure FuncDecl where
  name : String
  startLine : Nat
  startCol : Nat
  endLine : Nat
  endCol : Nat
  recvRaw : Option String
deriving DecidableEq

/-- ASCII whitespace, the characters `strings.TrimSpace` meets in receiver text. -/
def isSpaceCh (c : Char) : Bool := c == ' ' || c == '\t' || c == '\n' || c == '\r'

/-- `strings.TrimSpace` (restricted to ASCII whitespace). -/
def trimSpaceStr (s : String) : String :=
  (((s.toList.dropWhile isSpaceCh).reverse.dropWhile isSpaceCh).reverse).asString

/-- `strings.TrimLeft s "*"`. -/
def trimLeftStars (s : String) : String := (s.toList.dropWhile (fun c => c == '*')).asString

/-- `fileVisitor.recvName` (main.go:319-328): `-` for free functions, else the
receiver type text with leading `*` and surrounding space removed. -/
def recvName (d : FuncDecl) : String :=
  match d.recvRaw with
  | none => "-"
  | some raw => trimSpaceStr (trimLeftStars raw)

/-- The class key of `fileVisitor.class` (main.go:294-309): under `-by-files`
the file name with `/` and `\` replaced by `.`, else the receiver name. -/
def className (byFilesFlag : Bool) (fileName : String) (d : FuncDecl) : String :=
  if byFilesFlag then
    (fileName.toList.map (fun c => if c == '/' ∨ c == '\\' then '.' else c)).asString
  else recvName d

/-- Replace the element at an index (slice write through a retained pointer). -/
def updAt {α : Type} (f : α → α) : List α → Nat → List α
  | [], _ => []
  | x :: xs, 0 => f x :: xs
  | x :: xs, n + 1 => x :: updAt f xs n

/-- One `fileVisitor.Visit` step on a `FuncDecl` (main.go:252-262): look the
class up in the per-file map (the classes created during this visit), create it
on first sight, then append the method and its lines. -/
def visitDecl (byFilesFlag : Bool) (fileName mode : String) (blocks : List ProfileBlock)
    (newClasses : List Class) (d : FuncDecl) : List Class :=
  let key := className byFilesFlag fileName d
  let m := method mode d.name d.startLine d.startCol d.endLine d.endCol blocks
  match newClasses.findIdx? (fun c => c.Name == key) with
  | some i =>
    updAt (fun c => { c with Methods := c.Methods ++ [m], Lines := c.Lines ++ m.Lines })
      newClasses i
  | none => newClasses ++ [⟨key, fileName, [m], m.Lines⟩]

/-- `ast.Walk` over the file's declarations in source order: the classes this
file contributes to its package. -/
def visitFile (byFilesFlag : Bool) (fileName mode : String) (blocks : List ProfileBlock)
    (decls : List FuncDecl) : List Class :=
  decls.foldl (visitDecl byFilesFlag fileName mode blocks) []

/-- The file system and source-parser collaborators of `ParseProfile`:
`parser.ParseFile` yields the declarations of the file at a path (or fails),
`os.ReadFile` yields its contents (or fails). -/
structure FsOracle where
  parseFile : String → Option (List FuncDecl)
  readFile : String → Option String

/-- `findAbsFilePath` (main.go:166-174). -/
def findAbsFilePath (p : GoPackage) (profileName : String) : String :=
  let filename := filepathBase profileName
  match p.GoFiles.find? (fun full => filepathBase full == filename) with
  | some fp => fp
  | none => ""

/-- The package lookup of `ParseProfile` (main.go:219-223): the loop scans all
packages and keeps the LAST one whose name equals the resolved package path. -/
def lookupLastIdx : List Package → String → Option Nat
  | [], _ => none
  | p :: ps, name =>
    match lookupLastIdx ps name with
    | some i => some (i + 1)
    | none => if p.Name == name then some 0 else none

/-- `Coverage.ParseProfile` (main.go:191-241).  Mutation of the coverage's
package list is modelled by returning the new list; a returned error leaves it
untouched, as in the source where every error return precedes the mutation. -/
def ParseProfile (byFilesFlag : Bool) (fs : FsOracle) (ig : String → Option String → Bool)
    (packages : List Package) (profile : Profile) (pkgPkg : Option GoPackage) :
    Except String (List Package) :=
  match pkgPkg with
  | none => .error ("package required when using go modules")
  | some p =>
    match p.Module with
    | none => .error ("package required when using go modules")
    | some m =>
      let fileName := goSliceFrom profile.FileName (m.Path.toList.length + 1)
      let absFilePath := findAbsFilePath p profile.FileName
      match fs.parseFile absFilePath with
      | none => .error (("file path error: ") ++ profile.FileName)
      | some decls =>
        match fs.readFile absFilePath with
        | none => .error (("read file ") ++ absFilePath)
        | some data =>
          if ig fileName (some data) then .ok packages
          else
            let pkgPath := pkgPathOf m.Path fileName
            let classes := visitFile byFilesFlag fileName profile.Mode profile.Blocks decls
            match lookupLastIdx packages pkgPath with
            | some i =>
              .ok (updAt (fun pk => { pk with Classes := pk.Classes ++ classes }) packages i)
            | none => .ok (packages ++ [⟨p.ID, classes⟩])

/-- `Coverage.parseProfiles` (main.go:176-189), the per-profile loop: resolve
each profile's package through the package map and fold `ParseProfile`,
aborting at the first error.  (The trailing totals are carried by types.go and
not needed by the claims.) -/
def parseProfilesCov (byFilesFlag : Bool) (fs : FsOracle) (ig : String → Option String → Bool)
    (pkgMap : String → Option GoPackage) :
    List Package → List Profile → Except String (List Package)
  | packages, [] => .ok packages
  | packages, profile :: rest =>
    match ParseProfile byFilesFlag fs ig packages profile
        (pkgMap (getPackageName profile.FileName)) with
    | .ok packages2 => parseProfilesCov byFilesFlag fs ig pkgMap packages2 rest
    | .error e => .error e

/-- The consistency the `Convert` flow guarantees for one profile: when the
package map resolves the profile's directory, the returned package's ID equals
the package path `ParseProfile` recomputes from the module path.  (In `Convert`,
`pkgMap` maps `pkg.ID` to `pkg` and `packages.Load` is queried with the very
directory names `getPackageName` produces, so a found package's ID is that
directory, which equals the recomputed path whenever the file name is the
module path followed by a module-relative path.) -/
def stepConsistentB (pkgMap : String → Option GoPackage) (profile : Profile) : Bool :=
  match pkgMap (getPackageName profile.FileName) with
  | none => true
  | some p =>
    match p.Module with
    | none => true
    | some m =>
      p.ID == pkgPathOf m.Path (goSliceFrom profile.FileName (m.Path.toList.length + 1))

/-! ### The report emitter (main.go:120-130) -/

/-- `encoding/xml`'s `xml.Header` constant. -/
def xmlHeaderStr : String := "<?xml version=\"1.0\" encoding=\"UTF-8\"?>\n"

/-- `DTDDecl` (main.go:20). -/
def DTDDecl : String :=
  "<!DOCTYPE coverage SYSTEM \"http://cobertura.sourceforge.net/xml/coverage-04.dtd\">"

/-- One write against the destination, an oracle deciding whether the `idx`-th
write succeeds; a failed write emits nothing. -/
def writeStep (wok : Nat → Bool) (idx : Nat) (s : String) (acc : List String) :
    List String × Bool :=
  if wok idx then (acc ++ [s], true) else (acc, false)

/-- The emission sequence of `Convert` (main.go:120-130): `fmt.Fprint` of the
XML header and `fmt.Fprintln` of the DTD line with their errors discarded (the
`_, _ =` assignments), then `encoder.Encode` of the serialized tree (`tree`,
produced by the out-of-scope `encoding/xml` with two-space indent) whose error
is returned, then a discarded trailing `fmt.Fprintln`.  Returns the strings
actually written and `Convert`'s result. -/
def convertEmit (wok : Nat → Bool) (tree : String) : List String × Except String Unit :=
  let s1 := writeStep wok 0 xmlHeaderStr []
  let s2 := writeStep wok 1 (DTDDecl ++ "\n") s1.1
  let s3 := writeStep wok 2 tree s2.1
  if s3.2 then
    let s4 := writeStep wok 3 ("\n") s3.1
    (s4.1, .ok ())
  else (s3.1, .error ("encode: write error"))

/-! ### Concrete fixtures for witnesses and counterexamples -/

/-- An ignore filter matching nothing. -/
def igNone : String → Option String → Bool := fun _ _ => false

/-- A file-system oracle where every path parses to an empty declaration list
and reads as empty contents. -/
def fsTriv : FsOracle := ⟨fun _ => some [], fun _ => some ("")⟩

/-- A one-package module layout for concrete runs: module `m`, package `m/a`
with two files. -/
def pkgA : GoPackage := ⟨("m/a"), [("m/a/x.go"), ("m/a/y.go")], some ⟨("m")⟩⟩

/-- The package map `Convert` would build for `pkgA`. -/
def pkgMapA : String → Option GoPackage := fun s => if s == "m/a" then some pkgA else none

/-- Two profiles of distinct files in the same package. -/
def profilesA : List Profile :=
  [⟨("m/a/x.go"), ("set"), []⟩, ⟨("m/a/y.go"), ("set"), []⟩]

/-! ### Claims -/

/-- Claim C2, counterexample.  The claim asserts that for mode `set` and the
single block `file.go:5.1,9.2 3 1` over a declaration spanning lines 5-8
(positions (5,1)-(8,2)), the Method has exactly 4 Lines 5,6,7,8 with hits
1,0,0,0.  On the code, the block is selected and its count 1 is recorded on
EVERY line of the block's span [5,9]: the Method has 5 Lines, 5-9, each with
hit count 1, so the claimed Line list is wrong both in length and in hits. -/
theorem C2_counterexample :
    (method ("set") ("Func1") 5 1 8 2 [⟨5, 1, 9, 2, 3, 1⟩]).Lines =
      [⟨5, 1⟩, ⟨6, 1⟩, ⟨7, 1⟩, ⟨8, 1⟩, ⟨9, 1⟩]
    ∧ (method ("set") ("Func1") 5 1 8 2 [⟨5, 1, 9, 2, 3, 1⟩]).Lines.length = 5
    ∧ lineHits (method ("set") ("Func1") 5 1 8 2 [⟨5, 1, 9, 2, 3, 1⟩]).Lines 6 = some 1 := by
  decide

/-- Claim C2, amended: given mode `set` and the single profile block
`file.go:5.1,9.2 3 1` for a declaration spanning positions (5,1)-(8,2) (lines
5 through 8), the resulting Method has exactly 5 Lines, numbered 5,6,7,8 and 9,
each with hit count 1 — the block's count is recorded on every line of the
block's own span, including line 9 past the declaration's last line. -/
theorem C2_amended :
    (method ("set") ("Func1") 5 1 8 2 [⟨5, 1, 9, 2, 3, 1⟩]).Lines =
      [⟨5, 1⟩, ⟨6, 1⟩, ⟨7, 1⟩, ⟨8, 1⟩, ⟨9, 1⟩] := by
  decide

/-- Claim C5, counterexample.  The claim asserts a first line whose mode token
consists only of whitespace is rejected with the bad-mode-line error; but
`parseLine` accepts `mode:  ` (token `\x20`, whitespace-only), setting the mode
to a blank string, because only the exact line `mode: ` (empty token) is
tested for. -/
theorem C5_counterexample :
    parseLine igNone ("") ("mode:  ") [] = POutcome.ok ((" "), [])
    ∧ (" ").toList.all isSpaceCh = true
    ∧ (" ").toList.length = 1 := by
  decide

/-- Claim C5, amended: with no mode yet set, `parseLine` fails — with message
`bad mode line: <line>` — exactly when the line lacks the `mode: ` prefix or is
the bare `mode: ` (empty token); a whitespace-only token is accepted.  After a
valid mode line, `parseLine` never returns an error, and a line that does not
match the block pattern is skipped leaving the state unchanged. -/
theorem C5_amended (ig : String → Option String → Bool) (mode line : String)
    (files : List Profile) :
    (mode = "" →
      ((∃ e, parseLine ig mode line files = .err e) ↔
        (goHasPre line ("mode: ") = false ∨ line = "mode: "))
      ∧ ∀ e, parseLine ig mode line files = .err e → e = ("bad mode line: ") ++ line)
    ∧ (mode ≠ "" → ∀ e, parseLine ig mode line files ≠ .err e)
    ∧ (mode ≠ "" → lineMatch line = none → parseLine ig mode line files = .ok (mode, files)) := by
  refine ⟨?_, ?_, ?_⟩
  · intro hm
    subst hm
    by_cases hc : (¬ goHasPre line ("mode: ") ∨ line = "mode: ")
    · constructor
      · simp only [parseLine, if_pos rfl, if_pos hc]
        constructor
        · intro _
          rcases hc with hc | hc
          · exact Or.inl (by simpa using hc)
          · exact Or.inr hc
        · intro _
          exact ⟨_, rfl⟩
      · simp only [parseLine, if_pos rfl, if_pos hc]
        intro e he
        injection he with h
        exact h.symm
    · constructor
      · simp only [parseLine, if_pos rfl, if_neg hc]
        constructor
        · rintro ⟨e, he⟩
          exact absurd he (by simp)
        · intro h
          exact absurd (by
            rcases h with h | h
            · exact Or.inl (by simpa using h)
            · exact Or.inr h) hc
      · simp only [parseLine, if_pos rfl, if_neg hc]
        intro e he
        exact absurd he (by simp)
  · intro hm e
    simp only [parseLine, if_neg hm]
    rcases hg : lineMatch line with _ | g
    · simp
    · simp only []
      split
      · simp
      · split <;> simp
  · intro hm hmatch
    simp [parseLine, if_neg hm, hmatch]

/-- Claim C5, witness for the amended theorem: after a valid mode line,
a stray non-matching line is skipped without error. -/
theorem C5_witness :
    parseLine igNone ("set") ("garbage !") [] = POutcome.ok (("set"), []) :=
  (C5_amended igNone ("set") ("garbage !") []).2.2 (by decide) (by decide)

/-- Claim C8: `ParseProfile` on a profile whose package is nil or whose
package has nil module metadata always fails with the module-resolution error,
for EVERY file-system oracle (so regardless of whether the named file exists),
and a run (`parseProfilesCov`) reaching such a profile aborts with that error
before adding anything: the error is returned before the package list is
touched. -/
theorem C8_module_required (byFilesFlag : Bool) (fs : FsOracle)
    (ig : String → Option String → Bool) (packages : List Package) (profile : Profile)
    (pkgOpt : Option GoPackage)
    (h : pkgOpt = none ∨ ∃ p, pkgOpt = some p ∧ p.Module = none) :
    ParseProfile byFilesFlag fs ig packages profile pkgOpt =
      .error ("package required when using go modules")
    ∧ ∀ rest pkgMap, pkgMap (getPackageName profile.FileName) = pkgOpt →
        parseProfilesCov byFilesFlag fs ig pkgMap packages (profile :: rest) =
          .error ("package required when using go modules") := by
  have h1 : ParseProfile byFilesFlag fs ig packages profile pkgOpt =
      .error ("package required when using go modules") := by
    rcases h with rfl | ⟨p, rfl, hm⟩
    · rfl
    · simp [ParseProfile, hm]
  refine ⟨h1, ?_⟩
  intro rest pkgMap hpm
  simp [parseProfilesCov, hpm, h1]

/-- Claim C8, witness: the nil-package case at a concrete input. -/
theorem C8_witness :
    ParseProfile false fsTriv igNone [] ⟨("does-not-exist"), ("set"), []⟩ none =
      .error ("package required when using go modules") :=
  (C8_module_required false fsTriv igNone [] ⟨("does-not-exist"), ("set"), []⟩ none
    (Or.inl rfl)).1

/-- Claim C9, counterexample.  The claim asserts every failure to write to the
destination surfaces as an error from the conversion; but `Convert` discards
the error of the header write (`_, _ = fmt.Fprint(out, xml.Header)`): with a
destination failing exactly on that first write, the header is missing from
the output yet the conversion reports success. -/
theorem C9_counterexample :
    (convertEmit (fun n => n != 0) ("<coverage></coverage>")).2 = Except.ok ()
    ∧ (convertEmit (fun n => n != 0) ("<coverage></coverage>")).1 =
        [DTDDecl ++ "\n", ("<coverage></coverage>"), "\n"] := by
  decide

/-- Claim C9, amended: the emitter writes the XML header, then the DOCTYPE
line verbatim, then the serialized tree, then a newline, in that order (shown
for a fully-working destination); the conversion returns an error exactly when
the tree-encoding write fails — failures of the header, DOCTYPE and trailing
newline writes are discarded. -/
theorem C9_amended (wok : Nat → Bool) (tree : String) :
    ((∃ e, (convertEmit wok tree).2 = .error e) ↔ wok 2 = false)
    ∧ (wok 0 = true → wok 1 = true → wok 2 = true → wok 3 = true →
        (convertEmit wok tree).1 = [xmlHeaderStr, DTDDecl ++ "\n", tree, "\n"]) := by
  constructor
  · by_cases h2 : wok 2
    · simp [convertEmit, writeStep, h2]
    · simp [convertEmit, writeStep, h2]
  · intro h0 h1 h2 h3
    simp [convertEmit, writeStep, h0, h1, h2, h3]

/-- Claim C9, witness: the amended theorem at an always-succeeding destination. -/
theorem C9_witness :
    (convertEmit (fun _ => true) ("<coverage></coverage>")).1 =
      [xmlHeaderStr, DTDDecl ++ "\n", ("<coverage></coverage>"), "\n"] :=
  (C9_amended (fun _ => true) ("<coverage></coverage>")).2 rfl rfl rfl rfl

/-- Claim C10: a data line can match the block pattern while a numeric field
overflows the 64-bit integer range; `toInt`'s error branch is then reachable
and the parser panics on such a line — it neither returns an error nor skips
the line.  Shown on the concrete matching line
`a.go:99999999999999999999.1,2.3 4 5`, whose start-line field exceeds the
`int` range. -/
theorem C10_overflow_panics :
    lineMatch ("a.go:99999999999999999999.1,2.3 4 5") =
      some ⟨("a.go"), ("99999999999999999999"), ("1"), ("2"), ("3"), ("4"), ("5")⟩
    ∧ toInt ("99999999999999999999") = none
    ∧ parseLine igNone ("set") ("a.go:99999999999999999999.1,2.3 4 5") [] =
        POutcome.panicked := by
  decide

/-! ### Resolver lemmas -/

theorem lineHits_cons (l : Line) (ls : List Line) (n : Nat) :
    lineHits (l :: ls) n = if l.Number = n then some l.Hits else lineHits ls n := by
  by_cases h : l.Number = n <;> simp [lineHits, List.find?_cons, h]

theorem lineHits_addOrUpdateLine (mode : String) (lines : List Line) (i cnt n : Nat) :
    lineHits (addOrUpdateLine mode lines i cnt) n =
      if n = i then
        some (match lineHits lines i with
              | none => cnt
              | some oldHits => combineHits mode oldHits cnt)
      else lineHits lines n := by
  induction lines with
  | nil =>
    by_cases h : n = i
    · subst h; simp [addOrUpdateLine, lineHits_cons, lineHits]
    · simp [addOrUpdateLine, lineHits_cons, lineHits, h, Ne.symm h]
  | cons l ls ih =>
    by_cases h1 : l.Number = i
    · by_cases h2 : n = i
      · subst h2
        simp [addOrUpdateLine, h1, lineHits_cons]
      · have hne : i ≠ n := fun he => h2 he.symm
        simp [addOrUpdateLine, h1, lineHits_cons, h2, hne]
    · by_cases h2 : n = i
      · subst h2
        simp [addOrUpdateLine, h1, lineHits_cons, ih, Ne.symm h1]
      · by_cases h3 : l.Number = n
        · simp [addOrUpdateLine, h1, lineHits_cons, h3, h2]
        · simp [addOrUpdateLine, h1, lineHits_cons, h3, h2, ih]

theorem map_number_addOrUpdateLine (mode : String) (lines : List Line) (i cnt : Nat) :
    (addOrUpdateLine mode lines i cnt).map Line.Number =
      if i ∈ lines.map Line.Number then lines.map Line.Number
      else lines.map Line.Number ++ [i] := by
  induction lines with
  | nil => simp [addOrUpdateLine]
  | cons l ls ih =>
    by_cases h : l.Number = i
    · simp [addOrUpdateLine, h]
    · by_cases h2 : i ∈ ls.map Line.Number <;>
        simp [addOrUpdateLine, h, ih, h2, Ne.symm h]

theorem nodup_addOrUpdateLine (mode : String) (lines : List Line) (i cnt : Nat)
    (h : (lines.map Line.Number).Nodup) :
    ((addOrUpdateLine mode lines i cnt).map Line.Number).Nodup := by
  rw [map_number_addOrUpdateLine]
  by_cases h2 : i ∈ lines.map Line.Number
  · simpa [h2] using h
  · simp [h2, List.nodup_append, h]

theorem lineHits_addLinesFuel (mode : String) (fuel : Nat) :
    ∀ (lines : List Line) (lo cnt n : Nat),
    lineHits (addLinesFuel mode lines lo cnt fuel) n =
      if lo ≤ n ∧ n < lo + fuel then
        some (match lineHits lines n with
              | none => cnt
              | some oldHits => combineHits mode oldHits cnt)
      else lineHits lines n := by
  induction fuel with
  | zero =>
    intro lines lo cnt n
    have hfalse : ¬ (lo ≤ n ∧ n < lo) := by omega
    simp [addLinesFuel, hfalse]
  | succ fuel ih =>
    intro lines lo cnt n
    simp only [addLinesFuel]
    rw [ih]
    by_cases hn : n = lo
    · have hc1 : ¬ (lo + 1 ≤ n ∧ n < lo + 1 + fuel) := by omega
      have hc2 : lo ≤ n ∧ n < lo + (fuel + 1) := by omega
      rw [if_neg hc1, if_pos hc2, lineHits_addOrUpdateLine, if_pos hn, hn]
    · have hc : (lo + 1 ≤ n ∧ n < lo + 1 + fuel) ↔ (lo ≤ n ∧ n < lo + (fuel + 1)) := by
        omega
      rw [lineHits_addOrUpdateLine, if_neg hn]
      by_cases hin : lo ≤ n ∧ n < lo + (fuel + 1)
      · rw [if_pos (hc.mpr hin), if_pos hin]
      · rw [if_neg (fun hx => hin (hc.mp hx)), if_neg hin]

theorem lineHits_addBlockLines (mode : String) (lines : List Line) (lo hi cnt n : Nat) :
    lineHits (addBlockLines mode lines lo hi cnt) n =
      if lo ≤ n ∧ n ≤ hi then
        some (match lineHits lines n with
              | none => cnt
              | some oldHits => combineHits mode oldHits cnt)
      else lineHits lines n := by
  unfold addBlockLines
  rw [lineHits_addLinesFuel]
  have hiff : (lo ≤ n ∧ n < lo + (hi + 1 - lo)) ↔ (lo ≤ n ∧ n ≤ hi) := by omega
  by_cases hin : lo ≤ n ∧ n ≤ hi
  · rw [if_pos (hiff.mpr hin), if_pos hin]
  · rw [if_neg (fun hx => hin (hiff.mp hx)), if_neg hin]

theorem nodup_addLinesFuel (mode : String) (fuel : Nat) :
    ∀ (lines : List Line) (lo cnt : Nat), (lines.map Line.Number).Nodup →
    ((addLinesFuel mode lines lo cnt fuel).map Line.Number).Nodup := by
  induction fuel with
  | zero => intro lines lo cnt h; simpa [addLinesFuel] using h
  | succ fuel ih =>
    intro lines lo cnt h
    exact ih _ _ _ (nodup_addOrUpdateLine mode lines lo cnt h)

theorem nodup_addBlockLines (mode : String) (lines : List Line) (lo hi cnt : Nat)
    (h : (lines.map Line.Number).Nodup) :
    ((addBlockLines mode lines lo hi cnt).map Line.Number).Nodup :=
  nodup_addLinesFuel mode (hi + 1 - lo) lines lo cnt h

theorem methodLoop_eq_foldl (mode : String) (sl sc el ec : Nat) :
    ∀ (bs : List ProfileBlock) (lines : List Line),
    methodLoop mode sl sc el ec lines bs =
      (selectBlocks sl sc el ec bs).foldl
        (fun ls b => addBlockLines mode ls b.StartLine b.EndLine b.Count) lines := by
  intro bs
  induction bs with
  | nil => intro lines; rfl
  | cons b bs ih =>
    intro lines
    by_cases h1 : blockPastEnd b el ec
    · simp [methodLoop, selectBlocks, h1]
    · by_cases h2 : blockBeforeStart b sl sc
      · simp [methodLoop, selectBlocks, h1, h2, ih]
      · simp [methodLoop, selectBlocks, h1, h2, ih]

theorem selectBlocks_mem (sl sc el ec : Nat) :
    ∀ (bs : List ProfileBlock), ∀ b ∈ selectBlocks sl sc el ec bs,
    ¬ blockPastEnd b el ec ∧ ¬ blockBeforeStart b sl sc := by
  intro bs
  induction bs with
  | nil => intro b hb; simp [selectBlocks] at hb
  | cons c cs ih =>
    intro b hb
    by_cases h1 : blockPastEnd c el ec
    · simp [selectBlocks, h1] at hb
    · by_cases h2 : blockBeforeStart c sl sc
      · rw [selectBlocks, if_neg h1, if_pos h2] at hb
        exact ih b hb
      · rw [selectBlocks, if_neg h1, if_neg h2] at hb
        rcases hb with _ | hb
        · exact ⟨h1, h2⟩
        · exact ih b (by assumption)

theorem selectBlocks_stop (sl sc el ec : Nat) :
    ∀ (pre : List ProfileBlock) (b : ProfileBlock) (post : List ProfileBlock),
    blockPastEnd b el ec →
    selectBlocks sl sc el ec (pre ++ b :: post) = selectBlocks sl sc el ec pre := by
  intro pre
  induction pre with
  | nil =>
    intro b post hb
    simp [selectBlocks, hb]
  | cons a pre ih =>
    intro b post hb
    by_cases h1 : blockPastEnd a el ec
    · simp [selectBlocks, h1]
    · by_cases h2 : blockBeforeStart a sl sc <;>
        simp [selectBlocks, h1, h2, ih _ _ hb]

theorem lineHits_foldl_blocks (mode : String) :
    ∀ (sel : List ProfileBlock) (init : List Line) (n : Nat),
    lineHits
        (sel.foldl (fun ls b => addBlockLines mode ls b.StartLine b.EndLine b.Count) init) n =
      combineOpt mode (lineHits init n)
        (sel.filterMap
          (fun b => if b.StartLine ≤ n ∧ n ≤ b.EndLine then some b.Count else none)) := by
  intro sel
  induction sel with
  | nil => intro init n; rfl
  | cons b bs ih =>
    intro init n
    simp only [List.foldl_cons, List.filterMap_cons]
    by_cases hcov : b.StartLine ≤ n ∧ n ≤ b.EndLine
    · rw [ih, lineHits_addBlockLines, if_pos hcov, if_pos hcov]
      rcases h : lineHits init n with _ | v <;> simp [combineOpt, h]
    · rw [ih, lineHits_addBlockLines, if_neg hcov, if_neg hcov]

theorem nodup_foldl_addBlockLines (mode : String) :
    ∀ (sel : List ProfileBlock) (init : List Line), (init.map Line.Number).Nodup →
    (((sel.foldl (fun ls b => addBlockLines mode ls b.StartLine b.EndLine b.Count) init)).map
      Line.Number).Nodup := by
  intro sel
  induction sel with
  | nil => intro init h; exact h
  | cons b bs ih =>
    intro init h
    exact ih _ (nodup_addBlockLines mode init b.StartLine b.EndLine b.Count h)

theorem combineOpt_some_ne_none (mode : String) :
    ∀ (cs : List Nat) (x : Nat), combineOpt mode (some x) cs ≠ none := by
  intro cs
  induction cs with
  | nil => intro x h; exact Option.noConfusion h
  | cons c cs ih => intro x; exact ih _

/-- Claim C3: the resolver's block selection is decided lexicographically on
(line, column) with exclusive boundaries.  Every selected block is neither at
or past the declaration's end nor at or before its start; in particular a block
ending exactly at the declaration's start position and a block starting exactly
at the declaration's end position are never selected; reaching a block at or
past the end truncates the scan, selecting nothing further; and the Method's
lines are exactly the fold over the selected blocks. -/
theorem C3_resolver_boundaries (sl sc el ec : Nat) (blocks : List ProfileBlock) :
    (∀ b ∈ selectBlocks sl sc el ec blocks,
        ¬ blockPastEnd b el ec ∧ ¬ blockBeforeStart b sl sc)
    ∧ (∀ b ∈ selectBlocks sl sc el ec blocks,
        ¬ (b.EndLine = sl ∧ b.EndCol = sc) ∧ ¬ (b.StartLine = el ∧ b.StartCol = ec))
    ∧ (∀ pre b post, blocks = pre ++ b :: post → blockPastEnd b el ec →
        selectBlocks sl sc el ec blocks = selectBlocks sl sc el ec pre)
    ∧ (∀ mode mname, (method mode mname sl sc el ec blocks).Lines =
        (selectBlocks sl sc el ec blocks).foldl
          (fun ls b => addBlockLines mode ls b.StartLine b.EndLine b.Count) []) := by
  refine ⟨selectBlocks_mem sl sc el ec blocks, ?_, ?_, ?_⟩
  · intro b hb
    have h := selectBlocks_mem sl sc el ec blocks b hb
    constructor
    · rintro ⟨h1, h2⟩
      exact h.2 (Or.inr ⟨h1, le_of_eq h2⟩)
    · rintro ⟨h1, h2⟩
      exact h.1 (Or.inr ⟨h1, ge_of_eq h2⟩)
  · intro pre b post hsplit hb
    rw [hsplit]
    exact selectBlocks_stop sl sc el ec pre b post hb
  · intro mode mname
    exact methodLoop_eq_foldl mode sl sc el ec blocks []

/-- Claim C3, witness: with declaration span (1,1)-(10,5) and a sorted block
list whose second block starts exactly at the declaration's end position
(10,5), the scan stops there and selects only the first block. -/
theorem C3_witness :
    selectBlocks 1 1 10 5 [⟨2, 1, 3, 1, 1, 1⟩, ⟨10, 5, 11, 1, 1, 1⟩, ⟨12, 1, 13, 1, 1, 2⟩] =
      selectBlocks 1 1 10 5 [⟨2, 1, 3, 1, 1, 1⟩] :=
  (C3_resolver_boundaries 1 1 10 5
      [⟨2, 1, 3, 1, 1, 1⟩, ⟨10, 5, 11, 1, 1, 1⟩, ⟨12, 1, 13, 1, 1, 2⟩]).2.2.1
    [⟨2, 1, 3, 1, 1, 1⟩] ⟨10, 5, 11, 1, 1, 1⟩ [⟨12, 1, 13, 1, 1, 2⟩] rfl (by decide)

/-- Claim C7: within a Method the line numbers are unique; every selected
block contributes a recorded hit for every line of `[StartLine, EndLine]`;
and the recorded hit of a line equals the fold of the per-line combination —
`combineHits`: logical-OR under mode `set`, numeric sum otherwise — over the
counts of the selected blocks covering that line, in scan order.  (The
combination itself is modelled from the spec, `Lines.AddOrUpdateLine` of
types.go not being under src/.) -/
theorem C7_line_merge (mode mname : String) (sl sc el ec n : Nat)
    (blocks : List ProfileBlock) :
    (((method mode mname sl sc el ec blocks).Lines).map Line.Number).Nodup
    ∧ (∀ b ∈ selectBlocks sl sc el ec blocks, b.StartLine ≤ n → n ≤ b.EndLine →
        lineHits (method mode mname sl sc el ec blocks).Lines n ≠ none)
    ∧ lineHits (method mode mname sl sc el ec blocks).Lines n =
        combineOpt mode none
          ((selectBlocks sl sc el ec blocks).filterMap
            (fun b => if b.StartLine ≤ n ∧ n ≤ b.EndLine then some b.Count else none)) := by
  have hlines : (method mode mname sl sc el ec blocks).Lines =
      (selectBlocks sl sc el ec blocks).foldl
        (fun ls b => addBlockLines mode ls b.StartLine b.EndLine b.Count) [] :=
    methodLoop_eq_foldl mode sl sc el ec blocks []
  have hmain : lineHits (method mode mname sl sc el ec blocks).Lines n =
      combineOpt mode none
        ((selectBlocks sl sc el ec blocks).filterMap
          (fun b => if b.StartLine ≤ n ∧ n ≤ b.EndLine then some b.Count else none)) := by
    rw [hlines, lineHits_foldl_blocks]
    rfl
  refine ⟨?_, ?_, hmain⟩
  · rw [hlines]
    exact nodup_foldl_addBlockLines mode _ [] (by simp)
  · intro b hb hble hbge
    rw [hmain]
    have hmem : b.Count ∈ (selectBlocks sl sc el ec blocks).filterMap
        (fun b => if b.StartLine ≤ n ∧ n ≤ b.EndLine then some b.Count else none) := by
      apply List.mem_filterMap.mpr
      exact ⟨b, hb, by rw [if_pos ⟨hble, hbge⟩]⟩
    rcases hfm : (selectBlocks sl sc el ec blocks).filterMap
        (fun b => if b.StartLine ≤ n ∧ n ≤ b.EndLine then some b.Count else none) with _ | ⟨c, cs⟩
    · rw [hfm] at hmem
      exact absurd hmem (List.not_mem_nil _)
    · rw [hfm]
      exact combineOpt_some_ne_none mode cs c

/-- Claim C7, witness: for declaration span (3,1)-(9,2) and two selected
blocks both covering line 4 with counts 1 and 0, the recorded hit on line 4 is
their OR, 1. -/
theorem C7_witness :
    lineHits (method ("set") ("f2") 3 1 9 2
        [⟨3, 1, 5, 2, 1, 1⟩, ⟨4, 1, 6, 2, 1, 0⟩]).Lines 4 = some 1 :=
  (C7_line_merge ("set") ("f2") 3 1 9 2 4 [⟨3, 1, 5, 2, 1, 1⟩, ⟨4, 1, 6, 2, 1, 0⟩]).2.2

/-! ### Merge lemmas -/

theorem blockLe_iff_spanLe (a b : ProfileBlock) : blockLe a b ↔ spanLe (span a) (span b) :=
  Iff.rfl

theorem span_setCount (b : ProfileBlock) (x : Nat) : span { b with Count := x } = span b :=
  rfl

theorem sameSpan_setCount (a b : ProfileBlock) (x : Nat) :
    sameSpan a { b with Count := x } = sameSpan a b :=
  rfl

theorem mergeGo_ok_shape (mode : String) :
    ∀ (rest : List ProfileBlock) (last : ProfileBlock) (out : List ProfileBlock),
    mergeGo mode last rest = .ok out →
    ∃ cnt tail, out = { last with Count := cnt } :: tail := by
  intro rest
  induction rest with
  | nil =>
    intro last out h
    simp only [mergeGo] at h
    injection h with h
    exact ⟨last.Count, [], h.symm⟩
  | cons c cs ih =>
    intro last out h
    simp only [mergeGo] at h
    by_cases hs : sameSpan c last
    · rw [if_pos hs] at h
      by_cases hns : c.NumStmt ≠ last.NumStmt
      · rw [if_pos hns] at h
        exact absurd h (by simp)
      · rw [if_neg hns] at h
        obtain ⟨cnt, tail, htl⟩ := ih _ _ h
        exact ⟨cnt, tail, htl⟩
    · rw [if_neg hs] at h
      cases hmc : mergeGo mode c cs with
      | error e => rw [hmc] at h; exact absurd h (by simp [Except.map])
      | ok r =>
        rw [hmc] at h
        simp only [Except.map] at h
        injection h with h
        exact ⟨last.Count, r, h.symm⟩

theorem mergeGo_ok_spans (mode : String) :
    ∀ (rest : List ProfileBlock) (last : ProfileBlock) (out : List ProfileBlock),
    mergeGo mode last rest = .ok out →
    List.Sublist (out.map span) ((last :: rest).map span) := by
  intro rest
  induction rest with
  | nil =>
    intro last out h
    simp only [mergeGo] at h
    injection h with h
    rw [← h]
  | cons c cs ih =>
    intro last out h
    simp only [mergeGo] at h
    by_cases hs : sameSpan c last
    · rw [if_pos hs] at h
      by_cases hns : c.NumStmt ≠ last.NumStmt
      · rw [if_pos hns] at h
        exact absurd h (by simp)
      · rw [if_neg hns] at h
        have hsub := ih _ _ h
        rw [List.map_cons] at hsub ⊢
        rw [List.map_cons]
        rw [span_setCount] at hsub
        exact hsub.trans ((List.sublist_cons_self (span c) (cs.map span)).cons₂ (span last))
    · rw [if_neg hs] at h
      cases hmc : mergeGo mode c cs with
      | error e => rw [hmc] at h; exact absurd h (by simp [Except.map])
      | ok r =>
        rw [hmc] at h
        simp only [Except.map] at h
        injection h with h
        rw [← h, List.map_cons, List.map_cons]
        exact (ih _ _ hmc).cons₂ (span last)

theorem mergeGo_ok_chain (mode : String) :
    ∀ (rest : List ProfileBlock) (last : ProfileBlock) (out : List ProfileBlock),
    mergeGo mode last rest = .ok out →
    List.Chain' (fun a c => sameSpan c a = false) out := by
  intro rest
  induction rest with
  | nil =>
    intro last out h
    simp only [mergeGo] at h
    injection h with h
    rw [← h]
    simp
  | cons c cs ih =>
    intro last out h
    simp only [mergeGo] at h
    by_cases hs : sameSpan c last
    · rw [if_pos hs] at h
      by_cases hns : c.NumStmt ≠ last.NumStmt
      · rw [if_pos hns] at h
        exact absurd h (by simp)
      · rw [if_neg hns] at h
        exact ih _ _ h
    · rw [if_neg hs] at h
      cases hmc : mergeGo mode c cs with
      | error e => rw [hmc] at h; exact absurd h (by simp [Except.map])
      | ok r =>
        rw [hmc] at h
        simp only [Except.map] at h
        injection h with h
        rw [← h]
        obtain ⟨cnt, tail, rfl⟩ := mergeGo_ok_shape mode cs c r hmc
        refine List.chain'_cons.mpr ⟨?_, ih _ _ hmc⟩
        have : sameSpan { c with Count := cnt } last = sameSpan c last := rfl
        rw [this]
        exact Bool.not_eq_true _ ▸ (Bool.eq_false_iff.mpr hs)

theorem mergeGo_ok_pairwise (mode : String) (rest : List ProfileBlock)
    (last : ProfileBlock) (out : List ProfileBlock)
    (hp : List.Pairwise blockLe (last :: rest)) (h : mergeGo mode last rest = .ok out) :
    out.Pairwise blockLe := by
  have hsub := mergeGo_ok_spans mode rest last out h
  have hp2 : ((last :: rest).map span).Pairwise spanLe :=
    (List.pairwise_map).2 (hp.imp (fun {a b} hab => (blockLe_iff_spanLe a b).1 hab))
  have hout : (out.map span).Pairwise spanLe := hp2.sublist hsub
  exact (List.pairwise_map).1 hout |>.imp (fun {a b} hab => (blockLe_iff_spanLe a b).2 hab)

theorem mergeProfileBlocks_ok (mode : String) (blocks out : List ProfileBlock)
    (h : mergeProfileBlocks mode blocks = .ok out) :
    out.Pairwise blockLe ∧ List.Chain' (fun a c => sameSpan c a = false) out := by
  unfold mergeProfileBlocks at h
  cases hs : List.insertionSort blockLe blocks with
  | nil =>
    rw [hs] at h
    injection h with h
    rw [← h]
    exact ⟨List.Pairwise.nil, trivial⟩
  | cons b bs =>
    rw [hs] at h
    have hsort : List.Pairwise blockLe (b :: bs) := by
      have := List.sorted_insertionSort blockLe blocks
      rwa [hs] at this
    exact ⟨mergeGo_ok_pairwise mode bs b out hsort h, mergeGo_ok_chain mode bs b out h⟩

theorem mergeSameLocationSamples_ok (mode : String) :
    ∀ (files out : List Profile), mergeSameLocationSamples mode files = .ok out →
    ∀ q ∈ out, ∃ p, p ∈ files ∧ q.FileName = p.FileName ∧
      mergeProfileBlocks mode p.Blocks = .ok q.Blocks := by
  intro files
  induction files with
  | nil =>
    intro out h q hq
    simp only [mergeSameLocationSamples, List.mapM_nil] at h
    injection h with h
    rw [← h] at hq
    exact absurd hq (List.not_mem_nil q)
  | cons p ps ih =>
    intro out h q hq
    simp only [mergeSameLocationSamples, List.mapM_cons] at h
    cases hfp : mergeProfileBlocks mode p.Blocks with
    | error e => rw [hfp] at h; exact absurd h (by simp [Except.map, Bind.bind, Except.bind])
    | ok bs =>
      rw [hfp] at h
      cases hrest : List.mapM
          (fun p => Except.map (fun bs => { p with Blocks := bs }) (mergeProfileBlocks mode p.Blocks)) ps with
      | error e =>
        rw [hrest] at h
        exact absurd h (by simp [Except.map, Bind.bind, Except.bind])
      | ok rest =>
        rw [hrest] at h
        simp only [Except.map, Bind.bind, Except.bind, Pure.pure, Except.pure] at h
        injection h with h
        rw [← h] at hq
        rcases hq with _ | hq
        · exact ⟨p, List.mem_cons_self p ps, rfl, hfp⟩
        · obtain ⟨p2, hp2, hfn, hmg⟩ := ih rest hrest q (by assumption)
          exact ⟨p2, List.mem_cons_of_mem p hp2, hfn, hmg⟩

/-- Claim C6: for every accepted input, the returned profiles are sorted by
file identifier ascending, and within every returned profile the post-merge
blocks are sorted by (start line, start col) ascending. -/
theorem C6_output_sorted (ig : String → Option String → Bool) (lines : List String)
    (ps : List Profile) (h : ParseProfiles ig lines = .ok ps) :
    List.Pairwise profLe ps ∧ ∀ p ∈ ps, p.Blocks.Pairwise blockLe := by
  unfold ParseProfiles at h
  split at h
  next mode files heq =>
    split at h
    next fs hm =>
      injection h with h
      constructor
      · rw [← h]
        exact List.sorted_insertionSort profLe fs
      · intro p hp
        rw [← h] at hp
        have hpfs : p ∈ fs := (List.perm_insertionSort profLe fs).mem_iff.mp hp
        obtain ⟨p2, _, _, hmg⟩ := mergeSameLocationSamples_ok mode files fs hm p hpfs
        exact (mergeProfileBlocks_ok mode p2.Blocks p.Blocks hmg).1
    next e hm => exact absurd h (by simp)
  next e heq => exact absurd h (by simp)
  next heq => exact absurd h (by simp)

/-- Claim C6, witness: a concrete two-file profile, returned sorted. -/
theorem C6_witness :
    List.Pairwise profLe
      [⟨("a"), ("set"), [⟨3, 1, 4, 2, 1, 0⟩]⟩, ⟨("b"), ("set"), [⟨1, 1, 2, 2, 1, 1⟩]⟩]
    ∧ ∀ p ∈ [(⟨("a"), ("set"), [⟨3, 1, 4, 2, 1, 0⟩]⟩ : Profile),
        ⟨("b"), ("set"), [⟨1, 1, 2, 2, 1, 1⟩]⟩], p.Blocks.Pairwise blockLe :=
  C6_output_sorted igNone
    [("mode: set"), ("b:1.1,2.2 1 1"), ("a:3.1,4.2 1 0")]
    [⟨("a"), ("set"), [⟨3, 1, 4, 2, 1, 0⟩]⟩, ⟨("b"), ("set"), [⟨1, 1, 2, 2, 1, 1⟩]⟩]
    (by decide)

/-- Claim C4, counterexample.  The claim asserts two identical block lines
ALWAYS merge into a single block; but merging only combines ADJACENT identical
spans of the sorted list, and the sort keys on (start line, start col) only:
with a block of equal start but different end lying between two identical
lines, the (stable for fewer than 12 elements, as Go's) sort leaves the
duplicates non-adjacent and both survive. -/
theorem C4_counterexample :
    ParseProfiles igNone
      [("mode: set"), ("f:1.1,2.1 1 1"), ("f:1.1,3.1 1 1"), ("f:1.1,2.1 1 1")] =
      POutcome.ok [⟨("f"), ("set"), [⟨1, 1, 2, 1, 1, 1⟩, ⟨1, 1, 3, 1, 1, 1⟩, ⟨1, 1, 2, 1, 1, 1⟩]⟩]
    ∧ (([⟨1, 1, 2, 1, 1, 1⟩, ⟨1, 1, 3, 1, 1, 1⟩, ⟨1, 1, 2, 1, 1, 1⟩] : List ProfileBlock).filter
        (fun bb => sameSpan bb ⟨1, 1, 2, 1, 1, 1⟩)).length = 2 := by
  decide

/-- Claim C4, amended: after parsing, each file's blocks are sorted by
(start line, start col) ascending and ADJACENT blocks with identical spans are
merged — equal statement counts are required (a mismatch is a hard error) and
counts combine by bitwise OR under mode `set`, by addition otherwise — so that
two identical block lines merge into a single block when no other block with
the same start position lies between them (in particular when they are the
file's only blocks); the merged output never retains two adjacent equal
spans. -/
theorem C4_sort_merge (mode : String) (b b2 : ProfileBlock)
    (blocks out : List ProfileBlock) :
    (sameSpan b2 b = true → b2.NumStmt ≠ b.NumStmt →
      ∃ e, mergeProfileBlocks mode [b, b2] = .error e)
    ∧ (sameSpan b2 b = true → b2.NumStmt = b.NumStmt →
      mergeProfileBlocks mode [b, b2] =
        .ok [{ b with Count := if mode = "set" then Nat.lor b.Count b2.Count
                               else b.Count + b2.Count }])
    ∧ (mergeProfileBlocks mode blocks = .ok out →
        out.Pairwise blockLe ∧ List.Chain' (fun a c => sameSpan c a = false) out) := by
  have hble : sameSpan b2 b = true → blockLe b b2 := by
    intro hs
    simp only [sameSpan, Bool.and_eq_true, beq_iff_eq] at hs
    exact Or.inr ⟨hs.1.1.1.symm, le_of_eq hs.1.1.2.symm⟩
  have hsorted : sameSpan b2 b = true →
      List.insertionSort blockLe [b, b2] = [b, b2] := by
    intro hs
    simp [List.insertionSort, List.orderedInsert, if_pos (hble hs)]
  refine ⟨?_, ?_, fun h => mergeProfileBlocks_ok mode blocks out h⟩
  · intro hs hne
    unfold mergeProfileBlocks
    rw [hsorted hs]
    simp only [mergeGo, if_pos hs, if_pos hne]
    exact ⟨_, rfl⟩
  · intro hs heq
    unfold mergeProfileBlocks
    rw [hsorted hs]
    simp only [mergeGo, if_pos hs]
    rw [if_neg (not_not_intro heq)]

/-- Claim C4, witness: two identical blocks as a file's whole block list merge
into one, the count combined by bitwise OR under mode `set`. -/
theorem C4_witness :
    mergeProfileBlocks ("set") [⟨1, 1, 2, 1, 1, 1⟩, ⟨1, 1, 2, 1, 1, 1⟩] =
      .ok [⟨1, 1, 2, 1, 1, 1⟩] :=
  (C4_sort_merge ("set") ⟨1, 1, 2, 1, 1, 1⟩ ⟨1, 1, 2, 1, 1, 1⟩ [] []).2.1
    (by decide) (by decide)

/-! ### Package lookup lemmas (claim C1) -/

theorem lookupLastIdx_none_iff (name : String) :
    ∀ (pkgs : List Package), lookupLastIdx pkgs name = none ↔ name ∉ pkgs.map Package.Name := by
  intro pkgs
  induction pkgs with
  | nil => simp [lookupLastIdx]
  | cons p ps ih =>
    simp only [lookupLastIdx, List.map_cons, List.mem_cons]
    cases h : lookupLastIdx ps name with
    | some i =>
      have hmem : name ∈ ps.map Package.Name := by
        by_contra hno
        rw [← ih] at hno
        rw [h] at hno
        exact Option.noConfusion hno
      simp [hmem]
    | none =>
      by_cases hq : p.Name == name
      · have : name = p.Name := (beq_iff_eq.mp hq).symm
        simp [hq, this]
      · have hne : ¬ name = p.Name := fun he => hq (beq_iff_eq.mpr he.symm)
        have hnm : name ∉ ps.map Package.Name := ih.mp h
        simp [hq, hne, hnm]

theorem map_name_updAt (cs : List Class) :
    ∀ (pkgs : List Package) (i : Nat),
    (updAt (fun pk => { pk with Classes := pk.Classes ++ cs }) pkgs i).map Package.Name =
      pkgs.map Package.Name := by
  intro pkgs
  induction pkgs with
  | nil => intro i; rfl
  | cons p ps ih =>
    intro i
    cases i with
    | zero => simp [updAt]
    | succ n => simp [updAt, ih]

theorem ParseProfile_ok_names (byFilesFlag : Bool) (fs : FsOracle)
    (ig : String → Option String → Bool) (packages : List Package) (profile : Profile)
    (pkgOpt : Option GoPackage) (packages2 : List Package)
    (hok : ParseProfile byFilesFlag fs ig packages profile pkgOpt = .ok packages2) :
    ∃ p m, pkgOpt = some p ∧ p.Module = some m ∧
      (packages2.map Package.Name = packages.map Package.Name ∨
       (pkgPathOf m.Path (goSliceFrom profile.FileName (m.Path.toList.length + 1)) ∉
          packages.map Package.Name ∧
        packages2.map Package.Name = packages.map Package.Name ++ [p.ID])) := by
  cases pkgOpt with
  | none => exact absurd hok (by simp [ParseProfile])
  | some p =>
    simp only [ParseProfile] at hok
    split at hok
    · exact absurd hok (by simp)
    next m hm =>
      refine ⟨p, m, rfl, hm, ?_⟩
      split at hok
      · exact absurd hok (by simp)
      next decls hpf =>
        split at hok
        · exact absurd hok (by simp)
        next data hrf =>
          split at hok
          · injection hok with hok
            exact Or.inl (by rw [← hok])
          · split at hok
            next i hl =>
              injection hok with hok
              exact Or.inl (by rw [← hok, map_name_updAt])
            next hl =>
              injection hok with hok
              refine Or.inr ⟨(lookupLastIdx_none_iff _ packages).mp hl, ?_⟩
              rw [← hok]
              simp

theorem parseProfilesCov_nodup (byFilesFlag : Bool) (fs : FsOracle)
    (ig : String → Option String → Bool) (pkgMap : String → Option GoPackage) :
    ∀ (profiles : List Profile) (packages out : List Package),
    (∀ profile ∈ profiles, stepConsistentB pkgMap profile = true) →
    (packages.map Package.Name).Nodup →
    parseProfilesCov byFilesFlag fs ig pkgMap packages profiles = .ok out →
    (out.map Package.Name).Nodup := by
  intro profiles
  induction profiles with
  | nil =>
    intro packages out hcons hnd hok
    simp only [parseProfilesCov] at hok
    injection hok with hok
    rw [← hok]
    exact hnd
  | cons profile rest ih =>
    intro packages out hcons hnd hok
    simp only [parseProfilesCov] at hok
    cases hpp : ParseProfile byFilesFlag fs ig packages profile
        (pkgMap (getPackageName profile.FileName)) with
    | error e => rw [hpp] at hok; exact absurd hok (by simp)
    | ok packages2 =>
      rw [hpp] at hok
      obtain ⟨p, m, hp, hm, hnames⟩ :=
        ParseProfile_ok_names byFilesFlag fs ig packages profile _ packages2 hpp
      have hcons1 := hcons profile (List.mem_cons_self _ _)
      have hid : p.ID =
          pkgPathOf m.Path (goSliceFrom profile.FileName (m.Path.toList.length + 1)) := by
        unfold stepConsistentB at hcons1
        rw [hp] at hcons1
        simp only [] at hcons1
        rw [hm] at hcons1
        simpa using hcons1
      have hnd2 : (packages2.map Package.Name).Nodup := by
        rcases hnames with heq | ⟨hnotin, happ⟩
        · rw [heq]; exact hnd
        · rw [happ, hid]
          refine List.Nodup.append hnd (List.nodup_singleton _) ?_
          intro x hx hx2
          rw [List.mem_singleton] at hx2
          rw [hx2] at hx
          exact hnotin hx
      exact ih packages2 out (fun q hq => hcons q (List.mem_cons_of_mem _ hq)) hnd2 hok

/-- Claim C1: over a run from an empty coverage, provided — as the `Convert`
flow guarantees — each resolved package's ID equals the package path recomputed
from its module, the Coverage holds at most one Package per resolved package
name (the package names are pairwise distinct, the first profile of a package
having created the entry named by the package identifier); and a later profile
whose resolved package path is already present appends its classes to that
entry rather than creating a second Package: the package-name list is
unchanged. -/
theorem C1_package_uniqueness (byFilesFlag : Bool) (fs : FsOracle)
    (ig : String → Option String → Bool) (pkgMap : String → Option GoPackage)
    (profiles : List Profile) (out : List Package)
    (hcons : ∀ profile ∈ profiles, stepConsistentB pkgMap profile = true)
    (hok : parseProfilesCov byFilesFlag fs ig pkgMap [] profiles = .ok out) :
    (out.map Package.Name).Nodup
    ∧ ∀ (packages packages2 : List Package) (profile : Profile) (p : GoPackage) (m : GoModule),
        p.Module = some m →
        pkgPathOf m.Path (goSliceFrom profile.FileName (m.Path.toList.length + 1)) ∈
          packages.map Package.Name →
        ParseProfile byFilesFlag fs ig packages profile (some p) = .ok packages2 →
        packages2.map Package.Name = packages.map Package.Name := by
  constructor
  · exact parseProfilesCov_nodup byFilesFlag fs ig pkgMap profiles [] out hcons (by simp) hok
  · intro packages packages2 profile p m hm hmem hok2
    obtain ⟨p2, m2, hp2, hm2, hnames⟩ :=
      ParseProfile_ok_names byFilesFlag fs ig packages profile _ packages2 hok2
    injection hp2 with hp2
    rw [← hp2] at hm2
    rw [hm] at hm2
    injection hm2 with hm2
    rcases hnames with heq | ⟨hnotin, _⟩
    · exact heq
    · rw [← hm2] at hnotin
      exact absurd hmem hnotin

/-- Claim C1, witness: two profiles of the same package `m/a` produce a single
Package entry. -/
theorem C1_witness :
    (([⟨("m/a"), []⟩] : List Package).map Package.Name).Nodup :=
  (C1_package_uniqueness false fsTriv igNone pkgMapA profilesA [⟨("m/a"), []⟩]
    (by decide) (by decide)).1

end GocoverCobertura
